import Mathlib

/-!
Shallow embedding of the jetbrains-ai-proxy repository (Go) for checking its
natural-language specification.

Conventions used throughout:
* Go `map[string]*TokenStatus` iteration has no specified order, so every
  operation that ranges over the map takes an explicit `order : List String`
  parameter, constrained in theorems to be a permutation of the key set.
* External collaborators (the sonic JSON parser, `strconv.ParseFloat` composed
  with `math.Round`, the tiktoken cl100k tokenizer, `math/rand`, the upstream
  HTTP endpoint) are function parameters of the model, never reimplemented.
* Upstream stream text is modelled as `List Char`; a byte stream is the list of
  its newline-terminated lines, each line given without its trailing `'\n'`
  (Go's `ReadString('\n')` discards an unterminated trailing fragment on EOF).
-/

namespace JetbrainsProxy

/-! ### Credential pool (internal/balancer/jwt_balancer.go) -/

/-- Strategy string constant `config.RoundRobin`. -/
def roundRobinStrategy : String := "round_robin"

/-- Strategy string constant `config.Random`. -/
def randomStrategy : String := "random"

/-- Go struct `TokenStatus` (Token, Healthy, LastUsed, ErrorCount). -/
structure TokenStatus where
  token : String
  healthy : Bool
  lastUsed : Nat
  errorCount : Nat
deriving DecidableEq, Repr

/-- Go struct `BaseBalancer`: the keyed token collection (listed in insertion
order; the Go map key is `TokenStatus.Token`), the strategy string and the
atomic round-robin counter. -/
structure BaseBalancer where
  tokens : List TokenStatus
  strategy : String
  counter : Nat
deriving DecidableEq, Repr

/-- Lookup of a credential by its key in the balancer's map. -/
def lookupToken (b : BaseBalancer) (k : String) : Option TokenStatus :=
  b.tokens.find? (fun st => st.token == k)

/-- The `healthyTokens` slice built inside `GetToken`: the map values visited
in iteration order `order`, keeping the healthy ones. -/
def healthyTokensOf (b : BaseBalancer) (order : List String) : List TokenStatus :=
  (order.filterMap (lookupToken b)).filter (fun st => st.healthy)

/-- The `selectedToken.LastUsed = time.Now()` update. -/
def touchToken (now : Nat) (k : String) (l : List TokenStatus) : List TokenStatus :=
  l.map fun st => if st.token == k then { st with lastUsed := now } else st

/-- Embedding of `BaseBalancer.GetToken`. `order` is the Go map iteration order chosen by
the runtime for this call, `randIdx` abstracts `rand.Intn` (the code
guarantees an in-range index; reduction mod the slice length models that),
`now` abstracts `time.Now()`. The switch treats any strategy other than
`random` like `round_robin` (the `default` branch). -/
def getToken (b : BaseBalancer) (order : List String) (randIdx now : Nat) :
    Except String (String × BaseBalancer) :=
  match healthyTokensOf b order with
  | [] => .error "no healthy JWT tokens available"
  | t :: ts =>
    let hs := t :: ts
    if b.strategy == randomStrategy then
      let sel := hs.get ⟨randIdx % hs.length, Nat.mod_lt _ (Nat.succ_pos _)⟩
      .ok (sel.token, { b with tokens := touchToken now sel.token b.tokens })
    else
      let c := b.counter + 1
      let sel := hs.get ⟨c % hs.length, Nat.mod_lt _ (Nat.succ_pos _)⟩
      .ok (sel.token, { b with tokens := touchToken now sel.token b.tokens, counter := c })

/-- Embedding of `BaseBalancer.MarkTokenUnhealthy`: no-op when the key is absent. -/
def markTokenUnhealthy (b : BaseBalancer) (k : String) : BaseBalancer :=
  { b with tokens := b.tokens.map fun st =>
      if st.token == k then { st with healthy := false, errorCount := st.errorCount + 1 }
      else st }

/-- Embedding of `BaseBalancer.MarkTokenHealthy`: no-op when the key is absent. -/
def markTokenHealthy (b : BaseBalancer) (k : String) : BaseBalancer :=
  { b with tokens := b.tokens.map fun st =>
      if st.token == k then { st with healthy := true, errorCount := 0 }
      else st }

/-- Embedding of `BaseBalancer.GetHealthyTokenCount`. -/
def healthyTokenCount (b : BaseBalancer) : Nat :=
  (b.tokens.filter (fun st => st.healthy)).length

/-- Embedding of `BaseBalancer.GetTotalTokenCount`. -/
def totalTokenCount (b : BaseBalancer) : Nat :=
  b.tokens.length

/-- Healthy flag of the credential keyed `k`, as a later read would see it. -/
def tokenHealthyIn (b : BaseBalancer) (k : String) : Bool :=
  match lookupToken b k with
  | some st => st.healthy
  | none => false

/-! ### Health prober (HealthChecker, src/unnamed/part_002) -/

/-- Outcome of one `testTokenRequest` attempt: a transport error from the
HTTP client, or an upstream status code. -/
inductive ProbeResult where
  | transportError
  | status (code : Nat)
deriving DecidableEq, Repr

/-- The status classification inside `testTokenRequest`: 200 is healthy, 403
(quota exhausted but credential valid) is healthy, everything else fails. -/
def isProbeSuccess : ProbeResult → Bool
  | .transportError => false
  | .status c => c == 200 || c == 403

/-- The retry loop of `checkTokenHealth`: attempts `i, i+1, ...` until one
succeeds or `fuel` attempts have been spent. `att n` is the outcome the n-th
attempt would observe. -/
def checkTokenHealthLoop (att : Nat → ProbeResult) : Nat → Nat → Bool
  | 0, _ => false
  | fuel + 1, i => if isProbeSuccess (att i) then true else checkTokenHealthLoop att fuel (i + 1)

/-- Embedding of `HealthChecker.checkTokenHealth`: run up to `maxRetries` attempts, then
feed the verdict through the pool's mark APIs. -/
def checkTokenHealth (b : BaseBalancer) (k : String) (att : Nat → ProbeResult)
    (maxRetries : Nat) : BaseBalancer :=
  if checkTokenHealthLoop att maxRetries 0 then markTokenHealthy b k else markTokenUnhealthy b k

/-! ### SSE data model (internal/jetbrains/sse.go) -/

/-- Go struct `AmountData`. -/
structure AmountData where
  amount : String
deriving DecidableEq, Repr

/-- Go struct `QuotaInfo`. -/
structure QuotaInfo where
  quotaId : String
deriving DecidableEq, Repr

/-- Go struct `UpdatedData`. -/
structure UpdatedData where
  license : String
  current : AmountData
  maximum : AmountData
  untilTime : Int
  quotaID : QuotaInfo
deriving DecidableEq, Repr

/-- Go struct `SpentData`. -/
structure SpentData where
  amount : String
deriving DecidableEq, Repr

/-- Go struct `SSEData`; `typ` is the JSON field `type`. Content text is kept
as a character list. -/
structure SSEData where
  typ : String
  eventType : String
  content : List Char
  reason : String
  updated : Option UpdatedData
  spent : Option SpentData
deriving DecidableEq, Repr

/-- Go `openai.Usage`. Go `int` fields may go negative here, hence `Int`. -/
structure Usage where
  promptTokens : Int
  completionTokens : Int
  totalTokens : Int
deriving DecidableEq, Repr

/-- Go `openai.FinishReason`: only the two values this program produces. -/
inductive FinishReason where
  | null
  | stop
deriving DecidableEq, Repr

/-- Delta of a streaming choice (`openai.ChatCompletionStreamChoiceDelta`). -/
structure StreamDelta where
  role : String
  content : List Char
  reasoningContent : List Char
deriving DecidableEq, Repr

/-- One streaming response chunk (`openai.ChatCompletionStreamResponse`,
single choice as the code always builds). -/
structure StreamChunk where
  id : String
  object : String
  created : Int
  model : String
  delta : StreamDelta
  finishReason : FinishReason
  usage : Option Usage
  systemFingerprint : String
deriving DecidableEq, Repr

/-- One buffered response (`openai.ChatCompletionResponse`, single choice). -/
structure ChatCompletionResponse where
  id : String
  object : String
  created : Int
  model : String
  messageRole : String
  messageContent : List Char
  finishReason : FinishReason
  usage : Usage
  systemFingerprint : String
deriving DecidableEq, Repr

/-- External collaborators of the SSE pipeline, taken as parameters:
`parse` is `sonic.UnmarshalString` on a trimmed payload (`none` = parse
error), `parseSpent` is `strconv.ParseFloat` composed with `math.Round` and
the `int` conversion (`none` = ParseFloat error), `countTokens` is
`utils.CalculateTokens` (tiktoken cl100k_base, with its internal error
fallback to 0 absorbed in the function). -/
structure SSEEnv where
  parse : List Char → Option SSEData
  parseSpent : String → Option Int
  countTokens : List Char → Nat

/-- The `spentAmount` computation shared by both modes: 0 when the event has
no `spent` block or its amount does not parse, the rounded value otherwise. -/
def spentAmountInt (env : SSEEnv) (sp : Option SpentData) : Int :=
  match sp with
  | none => 0
  | some s => (env.parseSpent s.amount).getD 0

/-- Embedding of `utils.CalculateJetbrainsUsage`. -/
def calculateJetbrainsUsage (env : SSEEnv) (completionText : List Char) (spent : Int) : Usage :=
  { promptTokens := spent - env.countTokens completionText
    completionTokens := spent - env.countTokens completionText
    totalTokens := spent }

/-- Per-request identifiers fixed at stream start: chat id from the Unix
timestamp, the random fingerprint, and the request's model. -/
structure StreamCtx where
  env : SSEEnv
  chatId : String
  fp : String
  model : String
  now : Int

/-- Embedding of `createStreamMessage`. -/
def createStreamMessage (ctx : StreamCtx) (content reasoningContent : List Char) : StreamChunk :=
  { id := "chatcmpl-" ++ ctx.chatId
    object := "chat.completion.chunk"
    created := ctx.now
    model := ctx.model
    delta := { role := "assistant", content := content, reasoningContent := reasoningContent }
    finishReason := .null
    usage := none
    systemFingerprint := ctx.fp }

/-- Embedding of `createMessage` (non-streaming response). -/
def createMessage (ctx : StreamCtx) (usage : Usage) (content : List Char) : ChatCompletionResponse :=
  { id := "chatcmpl-" ++ ctx.chatId
    object := "chat.completions"
    created := ctx.now
    model := ctx.model
    messageRole := "assistant"
    messageContent := content
    finishReason := .stop
    usage := usage
    systemFingerprint := ctx.fp }

/-! ### SSE line framing -/

/-- A line read from the upstream body, without its trailing newline. -/
abbrev Line := List Char

/-- Go `len(line)` for a newline-terminated line: UTF-8 byte size plus the
`'\n'` that `ReadString` keeps. -/
def lineBytes (l : Line) : Nat :=
  (l.map Char.utf8Size).sum + 1

/-- Total bytes a list of lines feeds through the reader. -/
def sumBytes (lines : List Line) : Nat :=
  (lines.map lineBytes).sum

/-- Embedding of `strings.HasPrefix(line, "data: ")`. -/
def hasDataPre : Line → Bool
  | 'd' :: 'a' :: 't' :: 'a' :: ':' :: ' ' :: _ => true
  | _ => false

/-- Go `strings.TrimSpace` on the payload characters. -/
def trimChars (l : List Char) : List Char :=
  ((l.dropWhile Char.isWhitespace).reverse.dropWhile Char.isWhitespace).reverse

/-- The payload of a `data: ` line: drop the 6-character marker, then trim. -/
def payloadOf (l : Line) : List Char :=
  trimChars (l.drop 6)

/-- The literal `end` sentinel. -/
def endSentinel : List Char := ['e', 'n', 'd']

/-- The literal `[DONE]` sentinel (`sseFinish`). -/
def doneSentinel : List Char := ['[', 'D', 'O', 'N', 'E', ']']

/-- Embedding of `maxBufferSize = 1024 * 1024`. -/
def maxBufferSize : Nat := 1024 * 1024

/-- Embedding of `flushThreshold = 10`. -/
def flushThreshold : Nat := 10

/-- The streaming overflow error text (`fmt.Errorf` with `maxBufferSize`). -/
def overflowMsg : String :=
  "buffer overflow: exceeded maximum buffer size of 1048576 bytes"

/-- The event a line contributes on the streaming path: `data: ` framing,
skip of empty and `end` payloads, then the JSON parse (failures skipped). -/
def streamEventOf (env : SSEEnv) (l : Line) : Option SSEData :=
  if hasDataPre l then
    let js := payloadOf l
    if js = [] ∨ js = endSentinel then none
    else env.parse js
  else none

/-- The event a line contributes on the buffered path; this skip set also
holds the `[DONE]` sentinel. -/
def bufferedEventOf (env : SSEEnv) (l : Line) : Option SSEData :=
  if hasDataPre l then
    let js := payloadOf l
    if js = [] ∨ js = doneSentinel ∨ js = endSentinel then none
    else env.parse js
  else none

/-- All events of a stream on the streaming path, in order. -/
def streamEvents (env : SSEEnv) (lines : List Line) : List SSEData :=
  lines.filterMap (streamEventOf env)

/-- All events of a stream on the buffered path, in order. -/
def bufferedEvents (env : SSEEnv) (lines : List Line) : List SSEData :=
  lines.filterMap (bufferedEventOf env)

/-! ### Streaming translator -/

/-- Observable client-side emissions of the streaming translator: a JSON
chunk frame `data: <chunk>\n\n`, or the terminator `data: [DONE]\n\n` written
by `sendFinishSignal`. The timer-driven `: keepalive` comments live outside
this sequential model. -/
inductive OutEvent where
  | chunk (c : StreamChunk)
  | done
deriving DecidableEq, Repr

/-- Embedding of `processMessage`: returns the new accumulator and the emissions. -/
def processMessage (ctx : StreamCtx) (sse : SSEData) (builder : List Char) :
    List Char × List OutEvent :=
  if sse.typ = "Content" then
    (builder ++ sse.content, [.chunk (createStreamMessage ctx sse.content [])])
  else if sse.typ = "QuotaMetadata" then
    let usage := calculateJetbrainsUsage ctx.env builder (spentAmountInt ctx.env sse.spent)
    let msg := { createStreamMessage ctx [] [] with
                  finishReason := .stop, usage := some usage }
    (builder, [.chunk msg])
  else
    (builder, [])

/-- The main loop of `StreamJetbrainsAISSEToClient` over the remaining lines:
overflow accounting, framing, parse, `processMessage`, the flush-threshold
counter reset, and the `QuotaMetadata` early return with the finish signal. -/
def streamLoop (ctx : StreamCtx) (lines : List Line) (builder : List Char)
    (msgCount totalSize : Nat) : List OutEvent × Except String Unit :=
  match lines with
  | [] => ([], .ok ())
  | line :: rest =>
    let sz := totalSize + lineBytes line
    if maxBufferSize < sz then ([], .error overflowMsg)
    else if hasDataPre line then
      let js := payloadOf line
      if js = [] ∨ js = endSentinel then streamLoop ctx rest builder msgCount sz
      else
        match ctx.env.parse js with
        | none => streamLoop ctx rest builder msgCount sz
        | some sse =>
          let mc := msgCount + 1
          let (builder2, out) := processMessage ctx sse builder
          let mc2 := if flushThreshold ≤ mc then 0 else mc
          if sse.typ = "QuotaMetadata" then (out ++ [.done], .ok ())
          else
            let (outRest, res) := streamLoop ctx rest builder2 mc2 sz
            (out ++ outRest, res)
    else streamLoop ctx rest builder msgCount sz

/-- Embedding of `StreamJetbrainsAISSEToClient` on a full upstream body. -/
def streamSSEToClient (ctx : StreamCtx) (lines : List Line) :
    List OutEvent × Except String Unit :=
  streamLoop ctx lines [] 0 0

/-! ### Buffered translator -/

/-- The loop of `ResponseJetbrainsAIToClient`: accumulate `Content`, return
the accumulator and the spent amount at the first `QuotaMetadata`, or the
accumulator with spent 0 at EOF. No overflow accounting on this path. -/
def responseLoop (env : SSEEnv) (lines : List Line) (builder : List Char) :
    List Char × Int :=
  match lines with
  | [] => (builder, 0)
  | line :: rest =>
    if hasDataPre line then
      let js := payloadOf line
      if js = [] ∨ js = doneSentinel ∨ js = endSentinel then responseLoop env rest builder
      else
        match env.parse js with
        | none => responseLoop env rest builder
        | some sse =>
          let builder2 := if sse.typ = "Content" then builder ++ sse.content else builder
          if sse.typ = "QuotaMetadata" then (builder2, spentAmountInt env sse.spent)
          else responseLoop env rest builder2
    else responseLoop env rest builder

/-- Embedding of `ResponseJetbrainsAIToClient` on a full upstream body. -/
def responseSSEToClient (ctx : StreamCtx) (lines : List Line) : ChatCompletionResponse :=
  let (content, spent) := responseLoop ctx.env lines []
  createMessage ctx (calculateJetbrainsUsage ctx.env content spent) content

/-! ### Bearer auth middleware (internal/middleware/auth.go) -/

/-- The `Bearer ` header marker characters. -/
def bearerMarker : List Char := ['B', 'e', 'a', 'r', 'e', 'r', ' ']

/-- Embedding of `strings.HasPrefix(auth, "Bearer ")`. -/
def hasBearerPre : List Char → Bool
  | 'B' :: 'e' :: 'a' :: 'r' :: 'e' :: 'r' :: ' ' :: _ => true
  | _ => false

/-- Outcome of the middleware: 401 with a message, or pass-through. -/
inductive AuthResult where
  | unauthorized (msg : String)
  | passed
deriving DecidableEq, Repr

/-- Embedding of `BearerAuth`. `hdr` is the raw `Authorization` header (`none` when the
header is absent; Go's `Header.Get` then yields `""`). Returns the outcome
and the exact lines written through `log.Printf`. -/
def bearerAuth (configBearer : List Char) (hdr : Option (List Char)) :
    AuthResult × List (List Char) :=
  let auth := hdr.getD []
  if auth = [] ∨ ¬ hasBearerPre auth then
    (.unauthorized "invalid authorization header", [])
  else
    let token := auth.drop 7
    if token ≠ configBearer ∨ token = [] then
      (.unauthorized "invalid token", [("invalid token: ".data ++ token)])
    else
      (.passed, [])

/-! ### Model registry and request translation (internal/types/jetbrains.go) -/

/-- Go struct `OpenAIModel` (the `ID` field is filled only for listing). -/
structure OpenAIModel where
  id : String
  object : String
  ownedBy : String
  profile : String
deriving DecidableEq, Repr

/-- The `modelMap` registry literal. -/
def modelMap : List (String × OpenAIModel) :=
  [ ("gpt-4o", ⟨"", "model", "openai", "openai-gpt-4o"⟩)
  , ("o1", ⟨"", "model", "openai", "openai-o1"⟩)
  , ("o3", ⟨"", "model", "openai", "openai-o3"⟩)
  , ("o3-mini", ⟨"", "model", "openai", "openai-o3-mini"⟩)
  , ("o4-mini", ⟨"", "model", "openai", "openai-o4-mini"⟩)
  , ("gpt4.1", ⟨"", "model", "openai", "openai-gpt4.1"⟩)
  , ("gpt4.1-mini", ⟨"", "model", "openai", "openai-gpt4.1-mini"⟩)
  , ("gpt4.1-nano", ⟨"", "model", "openai", "openai-gpt4.1-nano"⟩)
  , ("gemini-pro-2.5", ⟨"", "model", "google", "google-chat-gemini-pro-2.5"⟩)
  , ("gemini-flash-2.0", ⟨"", "model", "google", "google-chat-gemini-flash-2.0"⟩)
  , ("gemini-flash-2.5", ⟨"", "model", "google", "google-chat-gemini-flash-2.5"⟩)
  , ("claude-3.5-haiku", ⟨"", "model", "anthropic", "anthropic-claude-3.5-haiku"⟩)
  , ("claude-3.5-sonnet", ⟨"", "model", "anthropic", "anthropic-claude-3.5-sonnet"⟩)
  , ("claude-3.7-sonnet", ⟨"", "model", "anthropic", "anthropic-claude-3.7-sonnet"⟩)
  , ("claude-4-sonnet", ⟨"", "model", "anthropic", "anthropic-claude-4-sonnet"⟩) ]

/-- Embedding of `GetModelByName`: map lookup, error `model '<name>' not found` on a miss. -/
def getModelByName (name : String) : Except String OpenAIModel :=
  match modelMap.lookup name with
  | some m => .ok m
  | none => .error ("model '" ++ name ++ "' not found")

/-- One OpenAI chat message as bound from the client body. -/
structure ChatMessage where
  role : String
  content : List Char
deriving DecidableEq, Repr

/-- The bound `openai.ChatCompletionRequest` fields this program reads. -/
structure ChatCompletionRequest where
  model : String
  messages : List ChatMessage
  stream : Bool
deriving DecidableEq, Repr

/-- Upstream message item with its type tag. -/
structure MessageField where
  typ : String
  content : List Char
deriving DecidableEq, Repr

/-- Upstream request envelope (`JetbrainsRequest`). -/
structure JetbrainsRequest where
  prompt : String
  profile : String
  messages : List MessageField
deriving DecidableEq, Repr

/-- Embedding of `convertOpenAIMessagesToJetbrains`: map the three known roles, silently
drop any other role. (The Go function's error return is always nil.) -/
def convertMessages (msgs : List ChatMessage) : List MessageField :=
  msgs.filterMap fun m =>
    if m.role = "system" then some ⟨"system_message", m.content⟩
    else if m.role = "user" then some ⟨"user_message", m.content⟩
    else if m.role = "assistant" then some ⟨"assistant_message", m.content⟩
    else none

/-- Embedding of `ChatGPTToJetbrainsAI`. -/
def chatGPTToJetbrainsAI (req : ChatCompletionRequest) : Except String JetbrainsRequest :=
  match getModelByName req.model with
  | .error e => .error ("failed to get model: " ++ e)
  | .ok m => .ok ⟨"ij.chat.request.new-chat", m.profile, convertMessages req.messages⟩

/-! ### Request orchestrator (handleChatCompletion and SendJetbrainsRequest) -/

/-- What one upstream POST of `SendJetbrainsRequest` observes: a transport
error from the HTTP client, or a status code with the raw SSE body. (The
shared resty client's response hook may fold non-200 statuses into the error
branch; both shapes are covered.) -/
inductive UpstreamOutcome where
  | transportError (msg : String)
  | response (code : Nat) (body : List Line)
deriving Repr

/-- The HTTP response the handler produces for the client. -/
inductive HandlerBody where
  | errorBody (msg : String)
  | streamBody (events : List OutEvent) (res : Except String Unit)
  | jsonBody (resp : ChatCompletionResponse)
deriving Repr

/-- Observable outcome of one `handleChatCompletion` call: the HTTP status
and body, whether `GetToken` was reached, whether the upstream endpoint was
contacted, and the pool state afterwards. -/
structure HandlerResult where
  statusCode : Nat
  body : HandlerBody
  acquireAttempted : Bool
  upstreamContacted : Bool
  poolAfter : BaseBalancer
deriving Repr

/-- Embedding of `SendJetbrainsRequest`: acquire a credential, POST upstream, feed the
outcome back to the pool. Returns the pool, the result, and whether the
upstream was contacted. -/
def sendJetbrainsRequest (pool : BaseBalancer) (order : List String) (randIdx now : Nat)
    (upstream : String → JetbrainsRequest → UpstreamOutcome) (req : JetbrainsRequest) :
    BaseBalancer × Except String (Nat × List Line) × Bool :=
  match getToken pool order randIdx now with
  | .error e => (pool, .error ("no available JWT tokens: " ++ e), false)
  | .ok (tok, pool1) =>
    match upstream tok req with
    | .transportError m => (markTokenUnhealthy pool1 tok, .error m, true)
    | .response code body =>
      if code = 401 then (markTokenUnhealthy pool1 tok, .error "JWT token invalid", true)
      else if code = 200 then (markTokenHealthy pool1 tok, .ok (code, body), true)
      else (pool1, .ok (code, body), true)

/-- Embedding of `handleChatCompletion`. `bindResult` is `none` when `c.Bind` fails on the
body. `ctxOf` supplies the per-request chat id, fingerprint and timestamp used
by the SSE translators. -/
def handleChatCompletion (pool : BaseBalancer) (order : List String) (randIdx now : Nat)
    (upstream : String → JetbrainsRequest → UpstreamOutcome)
    (ctxOf : ChatCompletionRequest → StreamCtx)
    (bindResult : Option ChatCompletionRequest) : HandlerResult :=
  match bindResult with
  | none =>
    ⟨400, .errorBody "Invalid request payload", false, false, pool⟩
  | some req =>
    match getModelByName req.model with
    | .error _ =>
      ⟨400, .errorBody ("Model '" ++ req.model ++ "' not supported"), false, false, pool⟩
    | .ok _ =>
      if req.messages.length = 0 then
        ⟨400, .errorBody "No messages found", false, false, pool⟩
      else
        match chatGPTToJetbrainsAI req with
        | .error e => ⟨500, .errorBody e, false, false, pool⟩
        | .ok jreq =>
          match sendJetbrainsRequest pool order randIdx now upstream jreq with
          | (pool2, .error e, contacted) => ⟨500, .errorBody e, true, contacted, pool2⟩
          | (pool2, .ok (_, body), contacted) =>
            if req.stream then
              let (out, res) := streamSSEToClient (ctxOf req) body
              ⟨200, .streamBody out res, true, contacted, pool2⟩
            else
              ⟨200, .jsonBody (responseSSEToClient (ctxOf req) body), true, contacted, pool2⟩

/-! ### Derived notions used to state the claims -/

/-- The content slices of the `Content` events of an event list, in order. -/
def contentsOf : List SSEData → List (List Char)
  | [] => []
  | e :: rest => if e.typ = "Content" then e.content :: contentsOf rest else contentsOf rest

/-- Does the event list hold a `QuotaMetadata` terminator? -/
def hasQuota (evs : List SSEData) : Bool :=
  evs.any (fun e => e.typ = "QuotaMetadata")

/-- Well-formedness of an event stream: once a `QuotaMetadata` terminator
occurs, no further `Content` events follow (they would be unreachable for
both translators). -/
def noContentAfterQuota : List SSEData → Bool
  | [] => true
  | e :: rest =>
    if e.typ = "QuotaMetadata" then rest.all (fun x => x.typ ≠ "Content")
    else noContentAfterQuota rest

/-- The terminal chunk `processMessage` builds at a `QuotaMetadata` event,
given the accumulated text. -/
def quotaChunkFor (ctx : StreamCtx) (text : List Char) (sp : Option SpentData) : StreamChunk :=
  { createStreamMessage ctx [] [] with
      finishReason := .stop
      usage := some (calculateJetbrainsUsage ctx.env text (spentAmountInt ctx.env sp)) }

/-- The chunk emitted for one `Content` event. -/
def contentChunkFor (ctx : StreamCtx) (content : List Char) : StreamChunk :=
  createStreamMessage ctx content []

/-- Expected chunk frames for the events strictly before the terminator. -/
def contentChunksOf (ctx : StreamCtx) (evs : List SSEData) : List OutEvent :=
  evs.filterMap fun e =>
    if e.typ = "Content" then some (.chunk (contentChunkFor ctx e.content)) else none

/-- Delta contents of the emitted chunks that carry finish-reason null. -/
def nullChunkContents : List OutEvent → List (List Char)
  | [] => []
  | .chunk c :: rest =>
    if c.finishReason = .null then c.delta.content :: nullChunkContents rest
    else nullChunkContents rest
  | .done :: rest => nullChunkContents rest

/-- Number of `data: [DONE]` terminator frames in the output. -/
def doneCount (out : List OutEvent) : Nat :=
  out.countP fun o =>
    match o with
    | .done => true
    | _ => false

/-- Whether the streaming loop, started with `sz` bytes already read, aborts
on overflow: the running count crosses `maxBufferSize` on some line read
before a `QuotaMetadata` event has been processed. -/
def overflowsFrom (env : SSEEnv) (sz : Nat) : List Line → Bool
  | [] => false
  | line :: rest =>
    let sz2 := sz + lineBytes line
    if maxBufferSize < sz2 then true
    else
      match streamEventOf env line with
      | some e => if e.typ = "QuotaMetadata" then false else overflowsFrom env sz2 rest
      | none => overflowsFrom env sz2 rest

/-- The content/spent pair the buffered loop extracts from an event list:
everything accumulated up to the first `QuotaMetadata` and its spent amount,
or the whole accumulation with spent 0 when no terminator occurs. -/
def bufferedSpec (env : SSEEnv) : List SSEData → List Char × Int
  | [] => ([], 0)
  | e :: rest =>
    if e.typ = "QuotaMetadata" then ([], spentAmountInt env e.spent)
    else if e.typ = "Content" then
      let (c, s) := bufferedSpec env rest
      (e.content ++ c, s)
    else bufferedSpec env rest

/-- Event-level mirror of the streaming loop: what the stream of parsed
events makes the translator emit, given the accumulated text so far. -/
def eventOutput (ctx : StreamCtx) (b : List Char) : List SSEData → List OutEvent
  | [] => []
  | e :: rest =>
    if e.typ = "Content" then
      .chunk (contentChunkFor ctx e.content) :: eventOutput ctx (b ++ e.content) rest
    else if e.typ = "QuotaMetadata" then
      [.chunk (quotaChunkFor ctx b e.spent), .done]
    else eventOutput ctx b rest

/-! ### Lemmas: streaming loop versus event stream -/

theorem sumBytes_cons (l : Line) (rest : List Line) :
    sumBytes (l :: rest) = lineBytes l + sumBytes rest := by
  simp [sumBytes]

theorem streamEvents_cons_none {env : SSEEnv} {l : Line} (rest : List Line)
    (h : streamEventOf env l = none) :
    streamEvents env (l :: rest) = streamEvents env rest := by
  simp [streamEvents, List.filterMap_cons, h]

theorem streamEvents_cons_some {env : SSEEnv} {l : Line} {e : SSEData} (rest : List Line)
    (h : streamEventOf env l = some e) :
    streamEvents env (l :: rest) = e :: streamEvents env rest := by
  simp [streamEvents, List.filterMap_cons, h]

theorem streamLoop_eq_eventOutput (ctx : StreamCtx) :
    ∀ (lines : List Line) (b : List Char) (mc sz : Nat),
      sz + sumBytes lines ≤ maxBufferSize →
      streamLoop ctx lines b mc sz =
        (eventOutput ctx b (streamEvents ctx.env lines), .ok ()) := by
  intro lines
  induction lines with
  | nil => intro b mc sz _; simp [streamLoop, streamEvents, eventOutput]
  | cons line rest ih =>
    intro b mc sz hsz
    rw [sumBytes_cons] at hsz
    have hnotover : ¬ maxBufferSize < sz + lineBytes line := by omega
    have hrest : (sz + lineBytes line) + sumBytes rest ≤ maxBufferSize := by omega
    rw [streamLoop]
    simp only [hnotover, if_false]
    by_cases hpre : hasDataPre line
    · by_cases hskip : payloadOf line = [] ∨ payloadOf line = endSentinel
      · have hev : streamEventOf ctx.env line = none := by
          simp [streamEventOf, hpre, hskip]
        rw [streamEvents_cons_none rest hev]
        simp [hpre, hskip, ih b mc _ hrest]
      · cases hparse : ctx.env.parse (payloadOf line) with
        | none =>
          have hev : streamEventOf ctx.env line = none := by
            simp [streamEventOf, hpre, hskip, hparse]
          rw [streamEvents_cons_none rest hev]
          simp [hpre, hskip, hparse, ih b mc _ hrest]
        | some sse =>
          have hev : streamEventOf ctx.env line = some sse := by
            simp [streamEventOf, hpre, hskip, hparse]
          rw [streamEvents_cons_some rest hev]
          by_cases hct : sse.typ = "Content"
          · have hnq : ¬ sse.typ = "QuotaMetadata" := by simp [hct]
            simp [hpre, hskip, hparse, processMessage, hct, hnq, eventOutput,
              contentChunkFor, ih _ _ _ hrest]
          · by_cases hqt : sse.typ = "QuotaMetadata"
            · simp [hpre, hskip, hparse, processMessage, hct, hqt, eventOutput,
                quotaChunkFor]
            · simp [hpre, hskip, hparse, processMessage, hct, hqt, eventOutput,
                ih _ _ _ hrest]
    · have hev : streamEventOf ctx.env line = none := by
        simp [streamEventOf, hpre]
      rw [streamEvents_cons_none rest hev]
      simp [hpre, ih b mc _ hrest]

theorem streamEventOf_some_inv {env : SSEEnv} {l : Line} {e : SSEData}
    (h : streamEventOf env l = some e) :
    hasDataPre l = true ∧ ¬(payloadOf l = [] ∨ payloadOf l = endSentinel) ∧
      env.parse (payloadOf l) = some e := by
  by_cases hpre : hasDataPre l
  · by_cases hskip : payloadOf l = [] ∨ payloadOf l = endSentinel
    · simp [streamEventOf, hpre, hskip] at h
    · simp only [streamEventOf, hpre, if_true, hskip, if_false] at h
      exact ⟨hpre, hskip, h⟩
  · simp [streamEventOf, hpre] at h

theorem hasQuota_cons_false {e : SSEData} {evs : List SSEData}
    (h : hasQuota (e :: evs) = false) :
    ¬ e.typ = "QuotaMetadata" ∧ hasQuota evs = false := by
  simpa [hasQuota] using h

theorem streamLoop_quota (ctx : StreamCtx) {q : SSEData} (ql : Line) (lr : List Line)
    (hq : streamEventOf ctx.env ql = some q) (hqt : q.typ = "QuotaMetadata") :
    ∀ (lp : List Line) (b : List Char) (mc sz : Nat),
      hasQuota (streamEvents ctx.env lp) = false →
      sz + sumBytes lp + lineBytes ql ≤ maxBufferSize →
      streamLoop ctx (lp ++ ql :: lr) b mc sz =
        (contentChunksOf ctx (streamEvents ctx.env lp) ++
          [.chunk (quotaChunkFor ctx
              (b ++ (contentsOf (streamEvents ctx.env lp)).flatten) q.spent), .done],
         .ok ()) := by
  intro lp
  induction lp with
  | nil =>
    intro b mc sz _ hsz
    simp only [sumBytes, List.map_nil, List.sum_nil, Nat.add_zero] at hsz
    obtain ⟨hpre, hskip, hparse⟩ := streamEventOf_some_inv hq
    have hnotover : ¬ maxBufferSize < sz + lineBytes ql := by omega
    have hnc : ¬ q.typ = "Content" := by simp [hqt]
    rw [List.nil_append, streamLoop]
    simp [hnotover, hpre, hskip, hparse, processMessage, hnc, hqt, quotaChunkFor,
      streamEvents, contentChunksOf, contentsOf]
  | cons line rest ih =>
    intro b mc sz hnq hsz
    rw [sumBytes_cons] at hsz
    have hnotover : ¬ maxBufferSize < sz + lineBytes line := by omega
    have hrest : (sz + lineBytes line) + sumBytes rest + lineBytes ql ≤ maxBufferSize := by
      omega
    rw [List.cons_append, streamLoop]
    simp only [hnotover, if_false]
    by_cases hpre : hasDataPre line
    · by_cases hskip : payloadOf line = [] ∨ payloadOf line = endSentinel
      · have hev : streamEventOf ctx.env line = none := by
          simp [streamEventOf, hpre, hskip]
        rw [streamEvents_cons_none rest hev] at hnq ⊢
        simp [hpre, hskip, ih b mc _ hnq hrest]
      · cases hparse : ctx.env.parse (payloadOf line) with
        | none =>
          have hev : streamEventOf ctx.env line = none := by
            simp [streamEventOf, hpre, hskip, hparse]
          rw [streamEvents_cons_none rest hev] at hnq ⊢
          simp [hpre, hskip, hparse, ih b mc _ hnq hrest]
        | some sse =>
          have hev : streamEventOf ctx.env line = some sse := by
            simp [streamEventOf, hpre, hskip, hparse]
          rw [streamEvents_cons_some rest hev] at hnq ⊢
          obtain ⟨hsq, hnq2⟩ := hasQuota_cons_false hnq
          by_cases hct : sse.typ = "Content"
          · simp only [hpre, if_true, hskip, if_false, hparse, processMessage, hct,
              if_pos rfl, hsq]
            rw [ih (b ++ sse.content) _ _ hnq2 hrest]
            simp [contentChunksOf, contentsOf, hct, contentChunkFor,
              List.append_assoc]
          · simp only [hpre, if_true, hskip, if_false, hparse, processMessage, hct,
              if_false, hsq]
            rw [ih b _ _ hnq2 hrest]
            simp [contentChunksOf, contentsOf, hct, hsq]
    · have hev : streamEventOf ctx.env line = none := by
        simp [streamEventOf, hpre]
      rw [streamEvents_cons_none rest hev] at hnq ⊢
      simp [hpre, ih b mc _ hnq hrest]

theorem contentsOf_nil_of_all {evs : List SSEData}
    (h : (evs.all fun x => x.typ ≠ "Content") = true) :
    contentsOf evs = [] := by
  induction evs with
  | nil => simp [contentsOf]
  | cons e rest ih =>
    rw [List.all_cons, Bool.and_eq_true] at h
    have he : ¬ e.typ = "Content" := by simpa using h.1
    simp [contentsOf, he, ih h.2]

theorem nullChunkContents_eventOutput (ctx : StreamCtx) :
    ∀ (evs : List SSEData) (b : List Char), noContentAfterQuota evs = true →
      nullChunkContents (eventOutput ctx b evs) = contentsOf evs := by
  intro evs
  induction evs with
  | nil => intro b _; simp [eventOutput, nullChunkContents, contentsOf]
  | cons e rest ih =>
    intro b hwf
    by_cases hct : e.typ = "Content"
    · have hnq : ¬ e.typ = "QuotaMetadata" := by simp [hct]
      rw [noContentAfterQuota] at hwf
      simp only [hnq, if_false] at hwf
      simp [eventOutput, hct, hnq, nullChunkContents, contentChunkFor,
        createStreamMessage, contentsOf, ih _ hwf]
    · by_cases hqt : e.typ = "QuotaMetadata"
      · rw [noContentAfterQuota] at hwf
        simp only [hqt, if_true] at hwf
        simp [eventOutput, hct, hqt, nullChunkContents, quotaChunkFor,
          createStreamMessage, contentsOf, contentsOf_nil_of_all hwf]
      · rw [noContentAfterQuota] at hwf
        simp only [hqt, if_false] at hwf
        simp [eventOutput, hct, hqt, contentsOf, ih b hwf]

theorem bufferedEvents_cons_none {env : SSEEnv} {l : Line} (rest : List Line)
    (h : bufferedEventOf env l = none) :
    bufferedEvents env (l :: rest) = bufferedEvents env rest := by
  simp [bufferedEvents, List.filterMap_cons, h]

theorem bufferedEvents_cons_some {env : SSEEnv} {l : Line} {e : SSEData} (rest : List Line)
    (h : bufferedEventOf env l = some e) :
    bufferedEvents env (l :: rest) = e :: bufferedEvents env rest := by
  simp [bufferedEvents, List.filterMap_cons, h]

theorem responseLoop_spec (env : SSEEnv) :
    ∀ (lines : List Line) (b : List Char),
      responseLoop env lines b =
        (b ++ (bufferedSpec env (bufferedEvents env lines)).1,
         (bufferedSpec env (bufferedEvents env lines)).2) := by
  intro lines
  induction lines with
  | nil => intro b; simp [responseLoop, bufferedEvents, bufferedSpec]
  | cons line rest ih =>
    intro b
    rw [responseLoop]
    by_cases hpre : hasDataPre line
    · by_cases hskip : payloadOf line = [] ∨ payloadOf line = doneSentinel ∨
          payloadOf line = endSentinel
      · have hev : bufferedEventOf env line = none := by
          simp only [bufferedEventOf, hpre, if_true]
          simp [hskip]
        rw [bufferedEvents_cons_none rest hev]
        simp [hpre, hskip, ih b]
      · cases hparse : env.parse (payloadOf line) with
        | none =>
          have hev : bufferedEventOf env line = none := by
            simp only [bufferedEventOf, hpre, if_true]
            simp [hskip, hparse]
          rw [bufferedEvents_cons_none rest hev]
          simp [hpre, hskip, hparse, ih b]
        | some sse =>
          have hev : bufferedEventOf env line = some sse := by
            simp only [bufferedEventOf, hpre, if_true]
            simp [hskip, hparse]
          rw [bufferedEvents_cons_some rest hev]
          by_cases hqt : sse.typ = "QuotaMetadata"
          · have hnc : ¬ sse.typ = "Content" := by simp [hqt]
            simp [hpre, hskip, hparse, hqt, hnc, bufferedSpec]
          · by_cases hct : sse.typ = "Content"
            · simp [hpre, hskip, hparse, hqt, hct, bufferedSpec, ih (b ++ sse.content),
                List.append_assoc]
            · simp [hpre, hskip, hparse, hqt, hct, bufferedSpec, ih b]
    · have hev : bufferedEventOf env line = none := by
        simp [bufferedEventOf, hpre]
      rw [bufferedEvents_cons_none rest hev]
      simp [hpre, ih b]

theorem bufferedSpec_no_quota (env : SSEEnv) :
    ∀ (evs : List SSEData), hasQuota evs = false →
      bufferedSpec env evs = ((contentsOf evs).flatten, 0) := by
  intro evs
  induction evs with
  | nil => intro _; simp [bufferedSpec, contentsOf]
  | cons e rest ih =>
    intro h
    obtain ⟨hnq, hrest⟩ := hasQuota_cons_false h
    by_cases hct : e.typ = "Content"
    · simp [bufferedSpec, hnq, hct, ih hrest, contentsOf]
    · simp [bufferedSpec, hnq, hct, ih hrest, contentsOf]

theorem bufferedSpec_wellFormed (env : SSEEnv) :
    ∀ (evs : List SSEData), noContentAfterQuota evs = true →
      (bufferedSpec env evs).1 = (contentsOf evs).flatten := by
  intro evs
  induction evs with
  | nil => intro _; simp [bufferedSpec, contentsOf]
  | cons e rest ih =>
    intro hwf
    by_cases hqt : e.typ = "QuotaMetadata"
    · rw [noContentAfterQuota] at hwf
      simp only [hqt, if_true] at hwf
      have hnc : ¬ e.typ = "Content" := by simp [hqt]
      simp [bufferedSpec, hqt, hnc, contentsOf, contentsOf_nil_of_all hwf]
    · rw [noContentAfterQuota] at hwf
      simp only [hqt, if_false] at hwf
      by_cases hct : e.typ = "Content"
      · simp [bufferedSpec, hqt, hct, ih hwf, contentsOf]
      · simp [bufferedSpec, hqt, hct, ih hwf, contentsOf]

theorem bufferedEventOf_eq_streamEventOf {env : SSEEnv}
    (hdone : env.parse doneSentinel = none) (l : Line) :
    bufferedEventOf env l = streamEventOf env l := by
  by_cases hpre : hasDataPre l
  · by_cases hd : payloadOf l = doneSentinel
    · simp [bufferedEventOf, streamEventOf, hpre, hd, hdone,
        show ¬ doneSentinel = [] by decide, show ¬ doneSentinel = endSentinel by decide]
    · by_cases hskip : payloadOf l = [] ∨ payloadOf l = endSentinel
      · rcases hskip with h1 | h2
        · simp [bufferedEventOf, streamEventOf, hpre, h1]
        · simp [bufferedEventOf, streamEventOf, hpre, h2,
            show ¬ endSentinel = doneSentinel by decide]
      · push_neg at hskip
        simp [bufferedEventOf, streamEventOf, hpre, hd, hskip.1, hskip.2]
  · simp [bufferedEventOf, streamEventOf, hpre]

theorem bufferedEvents_eq_streamEvents {env : SSEEnv}
    (hdone : env.parse doneSentinel = none) (lines : List Line) :
    bufferedEvents env lines = streamEvents env lines := by
  rw [bufferedEvents, streamEvents]
  have : bufferedEventOf env = streamEventOf env :=
    funext (bufferedEventOf_eq_streamEventOf hdone)
  rw [this]

/-! ### Lemmas: overflow behaviour -/

theorem streamLoop_overflow_iff (ctx : StreamCtx) :
    ∀ (lines : List Line) (b : List Char) (mc sz : Nat),
      ((streamLoop ctx lines b mc sz).2 = .error overflowMsg ↔
        overflowsFrom ctx.env sz lines = true) := by
  intro lines
  induction lines with
  | nil => intro b mc sz; simp [streamLoop, overflowsFrom]
  | cons line rest ih =>
    intro b mc sz
    rw [streamLoop, overflowsFrom]
    by_cases hover : maxBufferSize < sz + lineBytes line
    · simp [hover]
    · simp only [hover, if_false]
      by_cases hpre : hasDataPre line
      · by_cases hskip : payloadOf line = [] ∨ payloadOf line = endSentinel
        · have hev : streamEventOf ctx.env line = none := by
            simp [streamEventOf, hpre, hskip]
          simp [hpre, hskip, hev, ih b mc _]
        · cases hparse : ctx.env.parse (payloadOf line) with
          | none =>
            have hev : streamEventOf ctx.env line = none := by
              simp [streamEventOf, hpre, hskip, hparse]
            simp [hpre, hskip, hparse, hev, ih b mc _]
          | some sse =>
            have hev : streamEventOf ctx.env line = some sse := by
              simp [streamEventOf, hpre, hskip, hparse]
            by_cases hqt : sse.typ = "QuotaMetadata"
            · simp [hpre, hskip, hparse, hev, hqt]
            · cases hpm : processMessage ctx sse b with
              | mk b2 out =>
                simp [hpre, hskip, hparse, hev, hqt, hpm, ih b2 _]
      · have hev : streamEventOf ctx.env line = none := by
          simp [streamEventOf, hpre]
        simp [hpre, hev, ih b mc _]

theorem overflowsFrom_false_of_bounded (env : SSEEnv) :
    ∀ (lines : List Line) (sz : Nat), sz + sumBytes lines ≤ maxBufferSize →
      overflowsFrom env sz lines = false := by
  intro lines
  induction lines with
  | nil => intro sz _; simp [overflowsFrom]
  | cons line rest ih =>
    intro sz hsz
    rw [sumBytes_cons] at hsz
    have hnotover : ¬ maxBufferSize < sz + lineBytes line := by omega
    have hrest : (sz + lineBytes line) + sumBytes rest ≤ maxBufferSize := by omega
    rw [overflowsFrom]
    simp only [hnotover, if_false]
    cases hev : streamEventOf env line with
    | none => simpa using ih _ hrest
    | some e =>
      by_cases hqt : e.typ = "QuotaMetadata"
      · simp [hqt]
      · simpa [hqt] using ih _ hrest

/-! ### Lemmas: credential pool -/

theorem filterMap_find_keys :
    ∀ (l : List TokenStatus), (l.map (fun st => st.token)).Nodup →
      (l.map (fun st => st.token)).filterMap
        (fun k => l.find? (fun st => st.token == k)) = l := by
  intro l
  induction l with
  | nil => intro _; simp
  | cons st rest ih =>
    intro hnd
    rw [List.map_cons, List.nodup_cons] at hnd
    rw [List.map_cons, List.filterMap_cons]
    have hhead : (st :: rest).find? (fun x => x.token == st.token) = some st :=
      List.find?_cons_of_pos _ (by simp)
    rw [hhead]
    have hcongr : (rest.map (fun x => x.token)).filterMap
        (fun k => (st :: rest).find? (fun x => x.token == k)) =
        (rest.map (fun x => x.token)).filterMap
        (fun k => rest.find? (fun x => x.token == k)) := by
      apply List.filterMap_congr
      intro k hk
      have hne : ¬ (st.token == k) = true := by
        simp only [beq_iff_eq]
        intro he
        exact hnd.1 (he ▸ hk)
      exact List.find?_cons_of_neg _ hne
    rw [hcongr, ih hnd.2]

theorem healthyTokensOf_perm (b : BaseBalancer) (order : List String)
    (hnd : (b.tokens.map (fun st => st.token)).Nodup)
    (hperm : order.Perm (b.tokens.map (fun st => st.token))) :
    (healthyTokensOf b order).Perm (b.tokens.filter (fun st => st.healthy)) := by
  have h1 : (order.filterMap (lookupToken b)).Perm
      ((b.tokens.map (fun st => st.token)).filterMap (lookupToken b)) :=
    hperm.filterMap _
  have h2 : (b.tokens.map (fun st => st.token)).filterMap (lookupToken b) = b.tokens :=
    filterMap_find_keys b.tokens hnd
  rw [h2] at h1
  exact h1.filter _

/-! ### Lemmas: pool mark operations -/

theorem find_markHealthy :
    ∀ (l : List TokenStatus) (k : String), k ∈ l.map (fun st => st.token) →
      ∃ st, (l.map fun st =>
          if st.token == k then { st with healthy := true, errorCount := 0 } else st).find?
            (fun st => st.token == k) = some st ∧ st.healthy = true := by
  intro l
  induction l with
  | nil => intro k hk; simp at hk
  | cons h rest ih =>
    intro k hk
    by_cases hh : h.token = k
    · refine ⟨{ h with healthy := true, errorCount := 0 }, ?_, rfl⟩
      rw [List.map_cons, if_pos (by simpa using hh)]
      exact List.find?_cons_of_pos _ (by simpa using hh)
    · have hk2 : k ∈ rest.map (fun st => st.token) := by
        rw [List.map_cons, List.mem_cons] at hk
        rcases hk with h1 | h2
        · exact absurd h1.symm hh
        · exact h2
      obtain ⟨st, hfind, hst⟩ := ih k hk2
      refine ⟨st, ?_, hst⟩
      rw [List.map_cons, if_neg (by simpa using hh)]
      rw [List.find?_cons_of_neg _ (by simpa using hh)]
      exact hfind

theorem find_markUnhealthy :
    ∀ (l : List TokenStatus) (k : String), k ∈ l.map (fun st => st.token) →
      ∃ st, (l.map fun st =>
          if st.token == k then
            { st with healthy := false, errorCount := st.errorCount + 1 }
          else st).find? (fun st => st.token == k) = some st ∧ st.healthy = false := by
  intro l
  induction l with
  | nil => intro k hk; simp at hk
  | cons h rest ih =>
    intro k hk
    by_cases hh : h.token = k
    · refine ⟨{ h with healthy := false, errorCount := h.errorCount + 1 }, ?_, rfl⟩
      rw [List.map_cons, if_pos (by simpa using hh)]
      exact List.find?_cons_of_pos _ (by simpa using hh)
    · have hk2 : k ∈ rest.map (fun st => st.token) := by
        rw [List.map_cons, List.mem_cons] at hk
        rcases hk with h1 | h2
        · exact absurd h1.symm hh
        · exact h2
      obtain ⟨st, hfind, hst⟩ := ih k hk2
      refine ⟨st, ?_, hst⟩
      rw [List.map_cons, if_neg (by simpa using hh)]
      rw [List.find?_cons_of_neg _ (by simpa using hh)]
      exact hfind

theorem tokenHealthyIn_markHealthy (b : BaseBalancer) (k : String)
    (hk : k ∈ b.tokens.map (fun st => st.token)) :
    tokenHealthyIn (markTokenHealthy b k) k = true := by
  obtain ⟨st, hfind, hst⟩ := find_markHealthy b.tokens k hk
  simp only [tokenHealthyIn, lookupToken, markTokenHealthy]
  rw [hfind]
  exact hst

theorem tokenHealthyIn_markUnhealthy (b : BaseBalancer) (k : String)
    (hk : k ∈ b.tokens.map (fun st => st.token)) :
    tokenHealthyIn (markTokenUnhealthy b k) k = false := by
  obtain ⟨st, hfind, hst⟩ := find_markUnhealthy b.tokens k hk
  simp only [tokenHealthyIn, lookupToken, markTokenUnhealthy]
  rw [hfind]
  exact hst

/-! ### Lemmas: prober retry loop -/

theorem checkTokenHealthLoop_iff (att : Nat → ProbeResult) :
    ∀ (n i : Nat), checkTokenHealthLoop att n i = true ↔
      ∃ j, j < n ∧ isProbeSuccess (att (i + j)) = true := by
  intro n
  induction n with
  | zero => intro i; simp [checkTokenHealthLoop]
  | succ n ih =>
    intro i
    rw [checkTokenHealthLoop]
    by_cases hs : isProbeSuccess (att i) = true
    · simp only [hs, if_true, true_iff]
      exact ⟨0, Nat.succ_pos n, by simpa using hs⟩
    · rw [if_neg hs, ih (i + 1)]
      constructor
      · rintro ⟨j, hj, hsucc⟩
        exact ⟨j + 1, by omega, by rw [show i + (j + 1) = i + 1 + j by omega]; exact hsucc⟩
      · rintro ⟨j, hj, hsucc⟩
        match j with
        | 0 => exact absurd (by simpa using hsucc) hs
        | j + 1 =>
          exact ⟨j, by omega, by rw [show i + 1 + j = i + (j + 1) by omega]; exact hsucc⟩

/-! ### Claim C7 -/

/-- C7: whenever at least one credential in the pool is healthy, `GetToken`
returns the token of a healthy credential (for every map iteration order and
both strategies), and it returns the starvation error exactly when zero
credentials are healthy. -/
theorem getToken_succeeds_iff_healthy_exists (b : BaseBalancer) (order : List String)
    (randIdx now : Nat)
    (hnd : (b.tokens.map (fun st => st.token)).Nodup)
    (hperm : order.Perm (b.tokens.map (fun st => st.token))) :
    (0 < healthyTokenCount b →
      ∃ t b2, getToken b order randIdx now = .ok (t, b2) ∧
        ∃ st, st ∈ b.tokens ∧ st.token = t ∧ st.healthy = true) ∧
    (healthyTokenCount b = 0 →
      getToken b order randIdx now = .error "no healthy JWT tokens available") := by
  have hp := healthyTokensOf_perm b order hnd hperm
  constructor
  · intro hpos
    cases hh : healthyTokensOf b order with
    | nil =>
      rw [hh] at hp
      have hnil : b.tokens.filter (fun st => st.healthy) = [] := hp.symm.eq_nil
      rw [healthyTokenCount, hnil] at hpos
      simp at hpos
    | cons t ts =>
      rw [hh] at hp
      have hsel : ∃ sel b2, getToken b order randIdx now = .ok (sel.token, b2) ∧
          sel ∈ (t :: ts) := by
        by_cases hstrat : (b.strategy == randomStrategy) = true
        · refine ⟨(t :: ts).get ⟨randIdx % (t :: ts).length, Nat.mod_lt _ (Nat.succ_pos _)⟩,
            ⟨touchToken now ((t :: ts).get
                ⟨randIdx % (t :: ts).length, Nat.mod_lt _ (Nat.succ_pos _)⟩).token b.tokens,
              b.strategy, b.counter⟩, ?_,
            List.get_mem _ _ _⟩
          unfold getToken
          rw [hh]
          simp [hstrat]
        · refine ⟨(t :: ts).get
              ⟨(b.counter + 1) % (t :: ts).length, Nat.mod_lt _ (Nat.succ_pos _)⟩,
            ⟨touchToken now ((t :: ts).get
                ⟨(b.counter + 1) % (t :: ts).length, Nat.mod_lt _ (Nat.succ_pos _)⟩).token
                b.tokens,
              b.strategy, b.counter + 1⟩, ?_, List.get_mem _ _ _⟩
          unfold getToken
          rw [hh]
          simp [hstrat]
      obtain ⟨sel, b2, hres, hmem⟩ := hsel
      have hmem2 : sel ∈ b.tokens.filter (fun st => st.healthy) := hp.mem_iff.mp hmem
      have hmem3 := List.mem_filter.mp hmem2
      exact ⟨sel.token, b2, hres, sel, hmem3.1, rfl, by simpa using hmem3.2⟩
  · intro h0
    have hnil : b.tokens.filter (fun st => st.healthy) = [] :=
      List.length_eq_zero.mp h0
    have : healthyTokensOf b order = [] := by
      rw [hnil] at hp
      exact hp.eq_nil
    unfold getToken
    rw [this]

/-- Witness for C7 at a concrete two-credential pool with one healthy
credential. -/
theorem getToken_succeeds_iff_healthy_exists_witness :
    ∃ t b2,
      getToken ⟨[⟨"A", false, 0, 0⟩, ⟨"B", true, 0, 0⟩], "round_robin", 0⟩ ["B", "A"] 0 0 =
        .ok (t, b2) ∧
      ∃ st, st ∈ [TokenStatus.mk "A" false 0 0, TokenStatus.mk "B" true 0 0] ∧
        st.token = t ∧ st.healthy = true := by
  have h := getToken_succeeds_iff_healthy_exists
    ⟨[⟨"A", false, 0, 0⟩, ⟨"B", true, 0, 0⟩], "round_robin", 0⟩ ["B", "A"] 0 0
    (by decide) (by decide)
  exact h.1 (by decide)

/-! ### Claim C9 -/

/-- C9: one probe cycle for a pool credential leaves it healthy exactly when
some one of the 3 attempts observed upstream status 200 or 403, and unhealthy
exactly when all 3 attempts ended in a transport error or another status. -/
theorem probe_cycle_classification (b : BaseBalancer) (k : String)
    (att : Nat → ProbeResult) (hk : k ∈ b.tokens.map (fun st => st.token)) :
    (tokenHealthyIn (checkTokenHealth b k att 3) k = true ↔
      ∃ j, j < 3 ∧ isProbeSuccess (att j) = true) ∧
    (tokenHealthyIn (checkTokenHealth b k att 3) k = false ↔
      ∀ j, j < 3 → isProbeSuccess (att j) = false) := by
  unfold checkTokenHealth
  by_cases hl : checkTokenHealthLoop att 3 0 = true
  · have hex := (checkTokenHealthLoop_iff att 3 0).mp hl
    simp only [hl, if_true]
    rw [tokenHealthyIn_markHealthy b k hk]
    constructor
    · simpa using hex
    · constructor
      · intro hcontra; cases hcontra
      · intro hall
        obtain ⟨j, hj, hsucc⟩ := hex
        rw [Nat.zero_add] at hsucc
        rw [hall j hj] at hsucc
        cases hsucc
  · rw [if_neg hl, tokenHealthyIn_markUnhealthy b k hk]
    constructor
    · constructor
      · intro hcontra; cases hcontra
      · intro hex
        obtain ⟨j, hj, hsucc⟩ := hex
        exact absurd ((checkTokenHealthLoop_iff att 3 0).mpr ⟨j, hj, by simpa using hsucc⟩) hl
    · constructor
      · intro _ j hj
        cases hs : isProbeSuccess (att j) with
        | false => rfl
        | true =>
          exact absurd ((checkTokenHealthLoop_iff att 3 0).mpr ⟨j, hj, by simpa using hs⟩) hl
      · intro _; rfl

/-- Witness for C9: a credential whose second probe attempt returns 403 after
a transport error ends the cycle healthy. -/
theorem probe_cycle_classification_witness :
    tokenHealthyIn
      (checkTokenHealth ⟨[⟨"A", false, 0, 7⟩], "round_robin", 0⟩ "A"
        (fun n => if n = 0 then .transportError else .status 403) 3) "A" = true := by
  have h := probe_cycle_classification ⟨[⟨"A", false, 0, 7⟩], "round_robin", 0⟩ "A"
    (fun n => if n = 0 then .transportError else .status 403) (by decide)
  exact h.1.mpr ⟨1, by decide, by decide⟩

/-! ### Concrete fixtures for witnesses and counterexamples -/

/-- A literal upstream `Content` event payload. -/
def contentHelPayload : String := "\x7b\"type\":\"Content\",\"content\":\"Hel\"\x7d"

/-- A second literal upstream `Content` event payload. -/
def contentLoPayload : String := "\x7b\"type\":\"Content\",\"content\":\"lo\"\x7d"

/-- A literal upstream `QuotaMetadata` event payload. -/
def quotaPayload : String := "\x7b\"type\":\"QuotaMetadata\",\"spent\":\x7b\"amount\":\"5\"\x7d\x7d"

/-- A concrete instantiation of the external collaborators: the JSON parser
on the three literal payloads above (failing elsewhere, as sonic fails on
non-JSON sentinels), the spent parser on the literal `"5"`, and a token
counter that counts characters. -/
def demoEnv : SSEEnv where
  parse := fun js =>
    if js = contentHelPayload.data then some ⟨"Content", "content", "Hel".data, "", none, none⟩
    else if js = contentLoPayload.data then some ⟨"Content", "content", "lo".data, "", none, none⟩
    else if js = quotaPayload.data then some ⟨"QuotaMetadata", "quota", [], "", none, some ⟨"5"⟩⟩
    else none
  parseSpent := fun s => if s = "5" then some 5 else none
  countTokens := fun l => l.length

/-- Concrete per-request identifiers. -/
def demoCtx : StreamCtx := ⟨demoEnv, "1700000000", "fp1234abcd", "gpt-4o", 1700000000⟩

/-- The upstream body of spec scenario 4/5: `Hel`, `lo`, then the quota
terminator. -/
def demoLines : List Line :=
  [("data: " ++ contentHelPayload).data, ("data: " ++ contentLoPayload).data,
   ("data: " ++ quotaPayload).data]

/-- The same body truncated before the terminator (EOF without quota). -/
def demoNoQuotaLines : List Line :=
  [("data: " ++ contentHelPayload).data, ("data: " ++ contentLoPayload).data]

/-- A single upstream line of exactly `maxBufferSize` characters (so
`maxBufferSize + 1` bytes with its newline). -/
def bigLine : Line := List.replicate maxBufferSize 'x'

theorem lineBytes_bigLine : lineBytes bigLine = maxBufferSize + 1 := by
  have h : ∀ n : Nat, ((List.replicate n 'x').map Char.utf8Size).sum = n := by
    intro n
    induction n with
    | zero => simp
    | succ n ih =>
      have hx : Char.utf8Size 'x' = 1 := rfl
      rw [List.replicate_succ, List.map_cons, List.sum_cons, ih, hx]
      omega
  rw [lineBytes, bigLine, h]

theorem hasDataPre_bigLine : hasDataPre bigLine = false := by
  rw [bigLine, show maxBufferSize = 1048575 + 1 from rfl, List.replicate_succ]
  rfl

theorem streamEventOf_bigLine (env : SSEEnv) : streamEventOf env bigLine = none := by
  simp [streamEventOf, hasDataPre_bigLine]

theorem doneCount_contentChunksOf (ctx : StreamCtx) (evs : List SSEData) :
    doneCount (contentChunksOf ctx evs) = 0 := by
  induction evs with
  | nil => simp [contentChunksOf, doneCount]
  | cons e rest ih =>
    by_cases hct : e.typ = "Content"
    · simp [contentChunksOf, List.filterMap_cons, hct, doneCount, List.countP_cons] at ih ⊢
      exact ih
    · simpa [contentChunksOf, List.filterMap_cons, hct, doneCount] using ih

/-! ### Claim C1 -/

/-- C1 exhibit: with the pool `{A, B}` (both healthy, round-robin, counter 0),
two consecutive `GetToken` calls whose map iteration orders are `[A, B]` and
then `[B, A]` — both legal enumerations of the same unmodified Go map — both
return credential `B`: the `(counter mod |healthy|)` index is applied to a
per-call, unspecified enumeration, so n consecutive calls need not return
each credential once (the repo's own `TestRoundRobinStrategy` assumes they
do). -/
theorem getToken_roundRobin_order_dependent :
    List.Perm ["A", "B"]
      ((BaseBalancer.mk [⟨"A", true, 0, 0⟩, ⟨"B", true, 0, 0⟩] "round_robin" 0).tokens.map
        (fun st => st.token)) ∧
    List.Perm ["B", "A"]
      ((BaseBalancer.mk [⟨"A", true, 0, 0⟩, ⟨"B", true, 0, 0⟩] "round_robin" 0).tokens.map
        (fun st => st.token)) ∧
    getToken ⟨[⟨"A", true, 0, 0⟩, ⟨"B", true, 0, 0⟩], "round_robin", 0⟩ ["A", "B"] 0 0 =
      .ok ("B", ⟨[⟨"A", true, 0, 0⟩, ⟨"B", true, 0, 0⟩], "round_robin", 1⟩) ∧
    getToken ⟨[⟨"A", true, 0, 0⟩, ⟨"B", true, 0, 0⟩], "round_robin", 1⟩ ["B", "A"] 0 0 =
      .ok ("B", ⟨[⟨"A", true, 0, 0⟩, ⟨"B", true, 0, 0⟩], "round_robin", 2⟩) := by
  exact ⟨by decide, by decide, rfl, rfl⟩

/-! ### Claim C2 -/

/-- C2 (amended): when the upstream stream carries a `QuotaMetadata` event
and the running byte count through that event's line stays within 1 MiB, the
streaming translator emits a final chunk with empty delta content,
finish-reason stop and a populated usage field, then exactly one `[DONE]`
terminator, and returns without touching the remaining lines. -/
theorem streaming_quota_final_chunk_and_done (ctx : StreamCtx) (lp : List Line)
    (ql : Line) (lr : List Line) (q : SSEData)
    (hq : streamEventOf ctx.env ql = some q) (hqt : q.typ = "QuotaMetadata")
    (hnoq : hasQuota (streamEvents ctx.env lp) = false)
    (hsz : sumBytes lp + lineBytes ql ≤ maxBufferSize) :
    streamSSEToClient ctx (lp ++ ql :: lr) =
      (contentChunksOf ctx (streamEvents ctx.env lp) ++
        [.chunk (quotaChunkFor ctx (contentsOf (streamEvents ctx.env lp)).flatten q.spent),
         .done],
       .ok ()) ∧
    doneCount (streamSSEToClient ctx (lp ++ ql :: lr)).1 = 1 ∧
    (quotaChunkFor ctx (contentsOf (streamEvents ctx.env lp)).flatten q.spent).delta.content
      = [] ∧
    (quotaChunkFor ctx (contentsOf (streamEvents ctx.env lp)).flatten q.spent).finishReason
      = .stop ∧
    (quotaChunkFor ctx (contentsOf (streamEvents ctx.env lp)).flatten q.spent).usage =
      some (calculateJetbrainsUsage ctx.env (contentsOf (streamEvents ctx.env lp)).flatten
        (spentAmountInt ctx.env q.spent)) := by
  have hmain : streamSSEToClient ctx (lp ++ ql :: lr) =
      (contentChunksOf ctx (streamEvents ctx.env lp) ++
        [.chunk (quotaChunkFor ctx (contentsOf (streamEvents ctx.env lp)).flatten q.spent),
         .done],
       .ok ()) := by
    have h := streamLoop_quota ctx ql lr hq hqt lp [] 0 0 hnoq (by simpa using hsz)
    simpa [streamSSEToClient] using h
  refine ⟨hmain, ?_, rfl, rfl, rfl⟩
  rw [hmain]
  simp only [doneCount, List.countP_append] at *
  have h0 : doneCount (contentChunksOf ctx (streamEvents ctx.env lp)) = 0 :=
    doneCount_contentChunksOf ctx _
  rw [doneCount] at h0
  rw [h0]
  rfl

/-- C2 counterexample: a stream whose first line alone exceeds 1 MiB,
followed by a perfectly good `QuotaMetadata` line, makes the streaming
translator abort with the overflow error: no final chunk and no `[DONE]`
terminator are emitted although the stream contains a quota event. -/
theorem streaming_done_missing_on_overflow :
    hasQuota (streamEvents demoEnv [bigLine, ("data: " ++ quotaPayload).data]) = true ∧
    streamSSEToClient demoCtx [bigLine, ("data: " ++ quotaPayload).data] =
      ([], .error overflowMsg) ∧
    doneCount (streamSSEToClient demoCtx [bigLine, ("data: " ++ quotaPayload).data]).1 = 0 := by
  have hover : maxBufferSize < 0 + lineBytes bigLine := by
    rw [lineBytes_bigLine]; omega
  have hmain : streamSSEToClient demoCtx [bigLine, ("data: " ++ quotaPayload).data] =
      ([], .error overflowMsg) := by
    rw [streamSSEToClient, streamLoop, if_pos hover]
  refine ⟨?_, hmain, ?_⟩
  · rw [streamEvents_cons_none _ (streamEventOf_bigLine demoEnv)]
    decide
  · rw [hmain]
    rfl

/-- Witness for C2 (amended) on the literal scenario stream: two content
chunks, the terminal chunk, then exactly one terminator. -/
theorem streaming_quota_final_chunk_and_done_witness :
    streamSSEToClient demoCtx demoLines =
      (contentChunksOf demoCtx (streamEvents demoCtx.env demoNoQuotaLines) ++
        [.chunk (quotaChunkFor demoCtx
            (contentsOf (streamEvents demoCtx.env demoNoQuotaLines)).flatten
            (some ⟨"5"⟩)), .done],
       .ok ()) ∧
    doneCount (streamSSEToClient demoCtx demoLines).1 = 1 := by
  have h := streaming_quota_final_chunk_and_done demoCtx demoNoQuotaLines
    (("data: " ++ quotaPayload).data) [] ⟨"QuotaMetadata", "quota", [], "", none, some ⟨"5"⟩⟩
    (by decide) rfl (by decide) (by decide)
  have hlines : demoNoQuotaLines ++ [("data: " ++ quotaPayload).data] = demoLines := by decide
  rw [hlines] at h
  exact ⟨h.1, h.2.1⟩

/-! ### Claim C3 -/

/-- C3: for a well-formed stream of at most 1 MiB, the streaming translator
emits one null-finish chunk per `Content` event, in order, whose delta is
exactly that event's content slice; hence the concatenation of emitted deltas
equals the concatenation of the `Content` contents, and the buffered
translator returns that same concatenation as message content. (`hdone`
records that the JSON parser rejects the `[DONE]` sentinel, which the
streaming skip set omits.) -/
theorem streaming_preserves_content_order (ctx : StreamCtx) (lines : List Line)
    (hlen : sumBytes lines ≤ maxBufferSize)
    (hdone : ctx.env.parse doneSentinel = none)
    (hwf : noContentAfterQuota (streamEvents ctx.env lines) = true) :
    (streamSSEToClient ctx lines).2 = .ok () ∧
    nullChunkContents (streamSSEToClient ctx lines).1 =
      contentsOf (streamEvents ctx.env lines) ∧
    (nullChunkContents (streamSSEToClient ctx lines).1).flatten =
      (contentsOf (streamEvents ctx.env lines)).flatten ∧
    (responseSSEToClient ctx lines).messageContent =
      (contentsOf (streamEvents ctx.env lines)).flatten := by
  have hs : streamSSEToClient ctx lines =
      (eventOutput ctx [] (streamEvents ctx.env lines), .ok ()) := by
    rw [streamSSEToClient]
    exact streamLoop_eq_eventOutput ctx lines [] 0 0 (by simpa using hlen)
  refine ⟨?_, ?_, ?_, ?_⟩
  · rw [hs]
  · rw [hs]
    exact nullChunkContents_eventOutput ctx _ [] hwf
  · rw [hs, nullChunkContents_eventOutput ctx _ [] hwf]
  · have hrl := responseLoop_spec ctx.env lines []
    rw [bufferedEvents_eq_streamEvents hdone] at hrl
    simp only [responseSSEToClient, hrl, createMessage, List.nil_append]
    exact bufferedSpec_wellFormed ctx.env _ hwf

/-- Witness for C3 on the literal scenario stream. -/
theorem streaming_preserves_content_order_witness :
    (streamSSEToClient demoCtx demoLines).2 = .ok () ∧
    nullChunkContents (streamSSEToClient demoCtx demoLines).1 =
      contentsOf (streamEvents demoCtx.env demoLines) ∧
    (responseSSEToClient demoCtx demoLines).messageContent =
      (contentsOf (streamEvents demoCtx.env demoLines)).flatten := by
  have h := streaming_preserves_content_order demoCtx demoLines
    (by decide) (by decide) (by decide)
  exact ⟨h.1, h.2.1, h.2.2.2⟩

/-! ### Claim C4 -/

/-- C4: at a `QuotaMetadata` event the translator reports usage with
`prompt_tokens = completion_tokens = S - tokens(T)` and `total_tokens = S`,
where `T` is the accumulated assistant text, `tokens` is the (abstracted)
cl100k token counter, and `S` is the spent amount — 0 when the `spent` block
is missing or its amount fails to parse, the rounded parse result otherwise. -/
theorem quota_usage_formula (ctx : StreamCtx) (builder : List Char) (sse : SSEData)
    (hq : sse.typ = "QuotaMetadata") :
    processMessage ctx sse builder =
      (builder, [.chunk (quotaChunkFor ctx builder sse.spent)]) ∧
    (quotaChunkFor ctx builder sse.spent).usage = some
      { promptTokens := spentAmountInt ctx.env sse.spent - ctx.env.countTokens builder
        completionTokens := spentAmountInt ctx.env sse.spent - ctx.env.countTokens builder
        totalTokens := spentAmountInt ctx.env sse.spent } ∧
    (sse.spent = none → spentAmountInt ctx.env sse.spent = 0) ∧
    (∀ s, sse.spent = some s → ctx.env.parseSpent s.amount = none →
      spentAmountInt ctx.env sse.spent = 0) ∧
    (∀ s v, sse.spent = some s → ctx.env.parseSpent s.amount = some v →
      spentAmountInt ctx.env sse.spent = v) := by
  have hnc : ¬ sse.typ = "Content" := by rw [hq]; decide
  refine ⟨?_, rfl, ?_, ?_, ?_⟩
  · simp [processMessage, hnc, hq, quotaChunkFor]
  · intro h; simp [spentAmountInt, h]
  · intro s hs hp; simp [spentAmountInt, hs, hp]
  · intro s v hs hp; simp [spentAmountInt, hs, hp]

/-- Witness for C4: accumulated text `Hello` (5 tokens under the concrete
counter) and spent amount `"5"` yield prompt 0, completion 0, total 5. -/
theorem quota_usage_formula_witness :
    processMessage demoCtx ⟨"QuotaMetadata", "quota", [], "", none, some ⟨"5"⟩⟩ "Hello".data =
      ("Hello".data,
        [.chunk (quotaChunkFor demoCtx "Hello".data (some ⟨"5"⟩))]) ∧
    (quotaChunkFor demoCtx "Hello".data (some ⟨"5"⟩)).usage =
      some ⟨0, 0, 5⟩ := by
  have h := quota_usage_formula demoCtx "Hello".data
    ⟨"QuotaMetadata", "quota", [], "", none, some ⟨"5"⟩⟩ rfl
  refine ⟨h.1, ?_⟩
  rw [h.2.1]
  decide

/-! ### Claim C5 -/

/-- C5 counterexample: with configured bearer `secret` and header
`Authorization: Bearer wrong`, the middleware answers 401 but writes the
presented token value into the log. -/
theorem bearerAuth_logs_presented_token :
    (bearerAuth "secret".data (some "Bearer wrong".data)).1 = .unauthorized "invalid token" ∧
    ∃ l, l ∈ (bearerAuth "secret".data (some "Bearer wrong".data)).2 ∧
      "wrong".data <:+: l := by
  decide

/-- C5 (amended): every failed bearer check yields 401; the presented token
value stays out of the log only in the missing-header and missing-prefix
cases — a well-formed `Bearer ` header with a mismatched token is logged as
`invalid token: <token>`. -/
theorem bearerAuth_unauthorized_and_logs (bearer : List Char) (hdr : Option (List Char)) :
    ((hdr = none → (bearerAuth bearer hdr).1 = .unauthorized "invalid authorization header") ∧
     (∀ a, hdr = some a → hasBearerPre a = false →
        (bearerAuth bearer hdr).1 = .unauthorized "invalid authorization header") ∧
     (∀ a, hdr = some a → hasBearerPre a = true → a.drop 7 ≠ bearer →
        (bearerAuth bearer hdr).1 = .unauthorized "invalid token" ∧
        (bearerAuth bearer hdr).2 = ["invalid token: ".data ++ a.drop 7])) ∧
    ((bearerAuth bearer hdr).2 = [] ∨
      ∃ a, hdr = some a ∧ hasBearerPre a = true ∧
        (bearerAuth bearer hdr).2 = ["invalid token: ".data ++ a.drop 7]) := by
  refine ⟨⟨?_, ?_, ?_⟩, ?_⟩
  · intro h
    subst h
    rfl
  · intro a ha hfalse
    subst ha
    simp only [bearerAuth, Option.getD_some]
    rw [if_pos (Or.inr (by rw [hfalse]; decide))]
  · intro a ha hpre hne2
    subst ha
    have hcond : ¬ (a = [] ∨ ¬ (hasBearerPre a = true)) := by
      intro hor
      rcases hor with h1 | h2
      · rw [h1] at hpre; cases hpre
      · exact h2 hpre
    constructor
    · simp only [bearerAuth, Option.getD_some]
      rw [if_neg hcond, if_pos (Or.inl hne2)]
    · simp only [bearerAuth, Option.getD_some]
      rw [if_neg hcond, if_pos (Or.inl hne2)]
  · cases hdr with
    | none => exact .inl rfl
    | some a =>
      by_cases hpre : hasBearerPre a = true
      · have hcond : ¬ (a = [] ∨ ¬ (hasBearerPre a = true)) := by
          intro hor
          rcases hor with h1 | h2
          · rw [h1] at hpre; cases hpre
          · exact h2 hpre
        by_cases htok : List.drop 7 a ≠ bearer ∨ List.drop 7 a = []
        · refine .inr ⟨a, rfl, hpre, ?_⟩
          simp only [bearerAuth, Option.getD_some]
          rw [if_neg hcond, if_pos htok]
        · refine .inl ?_
          simp only [bearerAuth, Option.getD_some]
          rw [if_neg hcond, if_neg htok]
      · refine .inl ?_
        simp only [bearerAuth, Option.getD_some]
        rw [if_pos (Or.inr hpre)]

/-- Witness for C5 (amended) at the mismatched-token header. -/
theorem bearerAuth_unauthorized_and_logs_witness :
    (bearerAuth "secret".data (some "Bearer wrong".data)).1 = .unauthorized "invalid token" ∧
    (bearerAuth "secret".data (some "Bearer wrong".data)).2 =
      ["invalid token: ".data ++ "wrong".data] := by
  have h := bearerAuth_unauthorized_and_logs "secret".data (some "Bearer wrong".data)
  have h3 := h.1.2.2 "Bearer wrong".data rfl (by decide) (by decide)
  refine ⟨h3.1, ?_⟩
  rw [h3.2]
  decide

/-! ### Claim C6 -/

/-- C6: a chat request whose model is absent from the registry is answered
400 with body `Model '<model>' not supported`; no credential is acquired, the
upstream endpoint is not contacted, and the pool is untouched. -/
theorem unknown_model_rejected_without_upstream (pool : BaseBalancer)
    (order : List String) (randIdx now : Nat)
    (upstream : String → JetbrainsRequest → UpstreamOutcome)
    (ctxOf : ChatCompletionRequest → StreamCtx) (req : ChatCompletionRequest)
    (h : modelMap.lookup req.model = none) :
    handleChatCompletion pool order randIdx now upstream ctxOf (some req) =
      ⟨400, .errorBody ("Model '" ++ req.model ++ "' not supported"),
        false, false, pool⟩ := by
  simp only [handleChatCompletion, getModelByName, h]

/-- Witness for C6 at the literal spec scenario: model `does-not-exist`,
one user message `hi`. -/
theorem unknown_model_rejected_without_upstream_witness :
    handleChatCompletion ⟨[⟨"A", true, 0, 0⟩], "round_robin", 0⟩ ["A"] 0 0
      (fun _ _ => .transportError "unreachable") (fun _ => demoCtx)
      (some ⟨"does-not-exist", [⟨"user", "hi".data⟩], false⟩) =
      ⟨400, .errorBody "Model 'does-not-exist' not supported", false, false,
        ⟨[⟨"A", true, 0, 0⟩], "round_robin", 0⟩⟩ := by
  exact unknown_model_rejected_without_upstream _ _ _ _ _ _ _ (by decide)

/-! ### Claim C8 -/

/-- C8: the streaming translator ends in the buffer-overflow error exactly
when the running byte count crosses 1 MiB on some line read before a
`QuotaMetadata` event has been processed, and in particular never for a
stream of total size at most 1 MiB. -/
theorem stream_overflow_characterization (ctx : StreamCtx) (lines : List Line) :
    ((streamSSEToClient ctx lines).2 = .error overflowMsg ↔
      overflowsFrom ctx.env 0 lines = true) ∧
    (sumBytes lines ≤ maxBufferSize →
      (streamSSEToClient ctx lines).2 ≠ .error overflowMsg) := by
  constructor
  · exact streamLoop_overflow_iff ctx lines [] 0 0
  · intro hlen hcontra
    have hov := (streamLoop_overflow_iff ctx lines [] 0 0).mp hcontra
    rw [overflowsFrom_false_of_bounded ctx.env lines 0 (by simpa using hlen)] at hov
    cases hov

/-- Witness for C8: the bounded scenario stream never overflows, and the
overflowing stream of the C2 counterexample satisfies the characterization. -/
theorem stream_overflow_characterization_witness :
    (streamSSEToClient demoCtx demoLines).2 ≠ .error overflowMsg ∧
    (streamSSEToClient demoCtx [bigLine]).2 = .error overflowMsg := by
  constructor
  · exact (stream_overflow_characterization demoCtx demoLines).2 (by decide)
  · apply (stream_overflow_characterization demoCtx [bigLine]).1.mpr
    rw [overflowsFrom, if_pos]
    rw [lineBytes_bigLine]
    omega

/-! ### Claim C10 -/

/-- C10: when the upstream body reaches EOF before any `QuotaMetadata`
event, the buffered translator returns a normal response: the accumulated
content with finish-reason stop, and usage computed from spent 0, so
`total_tokens = 0` and `prompt_tokens = completion_tokens = -tokens(T)`. -/
theorem buffered_eof_default_response (ctx : StreamCtx) (lines : List Line)
    (h : hasQuota (bufferedEvents ctx.env lines) = false) :
    (responseSSEToClient ctx lines).messageContent =
      (contentsOf (bufferedEvents ctx.env lines)).flatten ∧
    (responseSSEToClient ctx lines).finishReason = .stop ∧
    (responseSSEToClient ctx lines).usage =
      { promptTokens :=
          0 - ctx.env.countTokens (contentsOf (bufferedEvents ctx.env lines)).flatten
        completionTokens :=
          0 - ctx.env.countTokens (contentsOf (bufferedEvents ctx.env lines)).flatten
        totalTokens := 0 } := by
  have hrl := responseLoop_spec ctx.env lines []
  rw [bufferedSpec_no_quota ctx.env _ h] at hrl
  refine ⟨?_, ?_, ?_⟩ <;>
    simp [responseSSEToClient, hrl, createMessage, calculateJetbrainsUsage]

/-- Witness for C10: the scenario stream truncated before its terminator
yields content `Hello` with total 0 and prompt = completion = -5 under the
concrete counter. -/
theorem buffered_eof_default_response_witness :
    (responseSSEToClient demoCtx demoNoQuotaLines).messageContent = "Hello".data ∧
    (responseSSEToClient demoCtx demoNoQuotaLines).usage = ⟨-5, -5, 0⟩ := by
  have h := buffered_eof_default_response demoCtx demoNoQuotaLines (by decide)
  constructor
  · rw [h.1]; decide
  · rw [h.2.2]; decide

end JetbrainsProxy
